import Mathlib

/-!
Verification of the ETL pipeline in `src/main.py` (a PySpark job).

The embedding models a Spark DataFrame row as an association list of
column name to cell value (`Df`), and a DataFrame as a list of rows
(`Table`).  Spark column expressions act per row, so each DataFrame
transformation of the source is embedded as a per-row function mapped
over the table.  Cell values carry Spark's runtime typing: a null is
typed (`Cell.null t` models `lit(None).cast(t)`), matching the
`column_types` dictionary of the source.

Spark behaviours relied on, each noted at its use site:
- `regexp_replace(col, r'\D', '')` on a null is null; on a string it
  removes every non-digit character;
- `CAST(string AS INT)` (non-ANSI default) trims whitespace, accepts an
  optionally signed digit string, and yields null on anything else;
- `split(col, ' ')` is Java `split` with limit -1: empty tokens kept;
- `concat_ws(sep, array)` skips null elements of the array;
- window `partitionBy` groups rows SQL-style, so null keys compare
  equal and fall in one partition;
- `orderBy(col.desc())` puts nulls last, so null dates rank below all
  non-null dates;
- `row_number()` assigns 1 to exactly one row per partition; on ties in
  the ordering key Spark leaves the choice unspecified, and the model
  fixes it as first occurrence in input order (see `pick1`).
-/

/-- The Spark SQL types appearing in `column_types` of `src/main.py`. -/
inductive SparkType where
  | string
  | integer
  | boolean
  | date
  | timestamp
deriving DecidableEq, Repr

/-- A cell of a DataFrame row.  Nulls are typed, as produced by
`lit(None).cast(t)`.  Dates are linearised to `Nat` (any encoding
monotone in (year, month, day) works for the ordering used by the
deduplication window). -/
inductive Cell where
  | null (t : SparkType)
  | str (v : String)
  | int (v : Int)
  | boolean (v : Bool)
  | date (v : Nat)
  | timestamp (v : String)
deriving DecidableEq, Repr

/-- One row of a DataFrame: column name to cell, in schema order. -/
abbrev Df := List (String × Cell)

/-- A DataFrame: its rows.  All rows of a real Spark DataFrame share one
schema; the model keeps the schema inside each row. -/
abbrev Table := List Df

/-- Column names of a row (`df.columns`). -/
def columnsOf (df : Df) : List String := df.map Prod.fst

/-- Value of a column in a row (first occurrence, as in Spark name
resolution): `none` when the column is absent. -/
def getVal : Df → String → Option Cell
  | [], _ => none
  | p :: rest, c => if p.1 = c then some p.2 else getVal rest c

/-- `withColumn`: replace the value of an existing column (every
occurrence, matching Spark's resolution by name) or append a new one. -/
def withColumn (df : Df) (c : String) (v : Cell) : Df :=
  if c ∈ columnsOf df then
    df.map (fun p => if p.1 = c then (c, v) else p)
  else
    df ++ [(c, v)]

/-- Apply a cell function to one column of a row, leaving every other
column untouched.  Models `df.withColumn(c, f(col(c)))` for a column
expression `f` that reads only column `c`; in the source such a call is
only made when `c` is present. -/
def mapColumn (df : Df) (c : String) (f : Cell → Cell) : Df :=
  df.map (fun p => if p.1 = c then (p.1, f p.2) else p)

/-- Drop a list of columns from a row (`df.drop(*cols)`). -/
def dropColumns (df : Df) (cols : List String) : Df :=
  df.filter (fun p => decide (p.1 ∉ cols))

/-- Remove every non-digit character of a string: the semantics of
`regexp_replace(s, r'\D', '')` on a non-null string (`\D` is the
complement of `[0-9]`). -/
def stripNonDigits (s : String) : String :=
  String.mk (s.toList.filter Char.isDigit)

/-- `regexp_replace(col, r'\D', '')` as a cell function: null in, null
out; a string loses its non-digit characters.  The source only applies
it to string-typed columns, so other constructors do not occur; they
are left unchanged. -/
def regexpReplaceNonDigit : Cell → Cell
  | Cell.str v => Cell.str (stripNonDigits v)
  | c => c

/-- `clean_phone(df, phone_col)` of `src/main.py`: replace the phone
column by `regexp_replace(col(phone_col), r'\D', '')`. -/
def clean_phone (df : Df) (phone_col : String) : Df :=
  mapColumn df phone_col regexpReplaceNonDigit

theorem stripNonDigits_all_digits (s : String) :
    (stripNonDigits s).toList.all Char.isDigit = true := by
  rw [List.all_eq_true]
  intro c hc
  have hm : c ∈ s.toList.filter Char.isDigit := hc
  exact (List.mem_filter.mp hm).2

theorem stripNonDigits_idem (s : String) :
    stripNonDigits (stripNonDigits s) = stripNonDigits s := by
  show String.mk ((s.toList.filter Char.isDigit).filter Char.isDigit)
      = String.mk (s.toList.filter Char.isDigit)
  exact congrArg String.mk
    (List.filter_eq_self.mpr (fun a ha => (List.mem_filter.mp ha).2))

/-- C8: `phoneNormalize` (the cell function of `clean_phone`) is
idempotent, keeps null null (for the phone column's type, string), and
its output on a string consists of digit characters only. -/
theorem phoneNormalize_idempotent_strips_null :
    (∀ c : Cell, regexpReplaceNonDigit (regexpReplaceNonDigit c) = regexpReplaceNonDigit c)
    ∧ (∀ t : SparkType, regexpReplaceNonDigit (Cell.null t) = Cell.null t)
    ∧ (∀ s : String, ∃ v : String,
        regexpReplaceNonDigit (Cell.str s) = Cell.str v ∧ v.toList.all Char.isDigit = true) := by
  refine ⟨?_, ?_, ?_⟩
  · intro c
    cases c with
    | str v => simp [regexpReplaceNonDigit, stripNonDigits_idem]
    | null t => rfl
    | int v => rfl
    | boolean v => rfl
    | date v => rfl
    | timestamp v => rfl
  · intro t; rfl
  · intro s
    exact ⟨stripNonDigits s, rfl, stripNonDigits_all_digits s⟩

theorem getVal_mapColumn : ∀ (df : Df) (c : String) (f : Cell → Cell) (c' : String),
    getVal (mapColumn df c f) c'
      = if c' = c then (getVal df c').map f else getVal df c'
  | [], c, f, c' => by by_cases h : c' = c <;> simp [mapColumn, getVal, h]
  | (k, v) :: rest, c, f, c' => by
    have ih := getVal_mapColumn rest c f c'
    simp only [mapColumn, List.map_cons] at ih ⊢
    by_cases hk : k = c
    · subst hk
      by_cases h : c' = k
      · subst h
        simp [getVal]
      · have h2 : ¬ k = c' := fun hh => h hh.symm
        simp [getVal, h, h2, ih]
    · by_cases h : k = c'
      · subst h
        simp [getVal, hk]
      · by_cases h4 : c' = c
        · subst h4
          simp [getVal, hk, h, ih]
        · simp [getVal, hk, h, h4, ih]

theorem columnsOf_mapColumn (df : Df) (c : String) (f : Cell → Cell) :
    columnsOf (mapColumn df c f) = columnsOf df := by
  induction df with
  | nil => rfl
  | cons p rest ih =>
    by_cases hp : p.1 = c <;> simp [mapColumn, columnsOf, hp] at ih ⊢ <;> exact ih

/-- C10: `clean_phone(df, 'phone')` is a frame-preserving update: every
column other than `phone` — in particular `phone2`, which the source
never normalizes — keeps its value, and the schema is unchanged. -/
theorem clean_phone_frame (df : Df) (c : String) (hc : c ≠ "phone") :
    getVal (clean_phone df "phone") c = getVal df c
    ∧ getVal (clean_phone df "phone") "phone2" = getVal df "phone2"
    ∧ columnsOf (clean_phone df "phone") = columnsOf df := by
  refine ⟨?_, ?_, columnsOf_mapColumn df "phone" regexpReplaceNonDigit⟩
  · rw [clean_phone, getVal_mapColumn, if_neg hc]
  · rw [clean_phone, getVal_mapColumn, if_neg (by decide)]

theorem getVal_map_replace_ne {c c' : String} (hne : c' ≠ c) (v : Cell) :
    ∀ df : Df, getVal (df.map (fun p => if p.1 = c then (c, v) else p)) c' = getVal df c'
  | [] => rfl
  | (k, w) :: rest => by
    have ih := getVal_map_replace_ne hne v rest
    by_cases hk : k = c
    · have h2 : ¬ c = c' := fun hh => hne hh.symm
      simp [getVal, hk, h2, hne, ih]
    · by_cases hkc : k = c' <;> simp [getVal, hk, hkc, hne, ih]

theorem getVal_map_replace_mem {c : String} (v : Cell) :
    ∀ df : Df, c ∈ columnsOf df →
      getVal (df.map (fun p => if p.1 = c then (c, v) else p)) c = some v
  | [], hmem => by simp [columnsOf] at hmem
  | (k, w) :: rest, hmem => by
    by_cases hk : k = c
    · simp [getVal, hk]
    · have hrest : c ∈ columnsOf rest := by
        rcases List.mem_cons.mp (show c ∈ k :: columnsOf rest from hmem) with h | h
        · exact absurd h.symm hk
        · exact h
      simp [getVal, hk, getVal_map_replace_mem v rest hrest]

theorem getVal_append_not_mem (c : String) (v : Cell) (c' : String) :
    ∀ df : Df, c ∉ columnsOf df →
      getVal (df ++ [(c, v)]) c' = if c' = c then some v else getVal df c'
  | [], _ => by
    by_cases h : c' = c
    · subst h; simp [getVal]
    · have h2 : ¬ c = c' := fun hh => h hh.symm
      simp [getVal, h, h2]
  | (k, w) :: rest, hmem => by
    have hk : ¬ k = c :=
      fun hh => hmem (show c ∈ k :: columnsOf rest from List.mem_cons.mpr (Or.inl hh.symm))
    have hrest : c ∉ columnsOf rest :=
      fun hh => hmem (show c ∈ k :: columnsOf rest from List.mem_cons.mpr (Or.inr hh))
    by_cases hkc : k = c'
    · have h3 : ¬ c' = c := fun hh => hk (hkc.trans hh)
      simp [getVal, hkc, h3]
    · simp [getVal, hkc, getVal_append_not_mem c v c' rest hrest]

/-- `withColumn` behaves as an update of the column map. -/
theorem getVal_withColumn (df : Df) (c : String) (v : Cell) (c' : String) :
    getVal (withColumn df c v) c' = if c' = c then some v else getVal df c' := by
  rw [withColumn]
  by_cases hmem : c ∈ columnsOf df
  · rw [if_pos hmem]
    by_cases h : c' = c
    · subst h
      rw [if_pos rfl]
      exact getVal_map_replace_mem v df hmem
    · rw [if_neg h]
      exact getVal_map_replace_ne h v df
  · rw [if_neg hmem]
    exact getVal_append_not_mem c v c' df hmem

theorem columnsOf_map_replace (c : String) (v : Cell) (df : Df) :
    columnsOf (df.map (fun p => if p.1 = c then (c, v) else p)) = columnsOf df := by
  rw [columnsOf, columnsOf, List.map_map]
  apply List.map_congr_left
  intro p hp
  by_cases hpc : p.1 = c <;> simp [Function.comp, hpc]

theorem columnsOf_withColumn (df : Df) (c : String) (v : Cell) :
    columnsOf (withColumn df c v)
      = if c ∈ columnsOf df then columnsOf df else columnsOf df ++ [c] := by
  rw [withColumn]
  by_cases hmem : c ∈ columnsOf df
  · rw [if_pos hmem, if_pos hmem]
    exact columnsOf_map_replace c v df
  · rw [if_neg hmem, if_neg hmem]
    simp [columnsOf]

theorem getVal_dropColumns_not_mem (cols : List String) (c : String) (hc : c ∉ cols) :
    ∀ df : Df, getVal (dropColumns df cols) c = getVal df c
  | [] => rfl
  | (k, w) :: rest => by
    have ih := getVal_dropColumns_not_mem cols c hc rest
    simp only [dropColumns, decide_not] at ih ⊢
    by_cases hk : k ∈ cols
    · have h2 : ¬ k = c := fun hh => hc (hh ▸ hk)
      simp [getVal, List.filter_cons, hk, h2, hc, ih]
    · by_cases hkc : k = c <;> simp [getVal, List.filter_cons, hk, hkc, hc, ih]

theorem not_mem_columnsOf_dropColumns (cols : List String) (c : String) (hc : c ∈ cols)
    (df : Df) : c ∉ columnsOf (dropColumns df cols) := by
  intro hmem
  rcases List.mem_map.mp (show c ∈ (dropColumns df cols).map Prod.fst from hmem) with
    ⟨p, hp, hpc⟩
  have hfilt := List.of_mem_filter hp
  rw [hpc] at hfilt
  simp at hfilt
  exact hfilt hc

/-- Spark `trim(col)` on a string value: remove leading and trailing
space characters. -/
def trimSpaces (s : String) : String :=
  String.mk (((s.toList.dropWhile (fun ch => ch = ' ')).reverse.dropWhile
      (fun ch => ch = ' ')).reverse)

/-- Cell form of `trim`: null stays null. -/
def trimCell : Cell → Cell
  | Cell.str s => Cell.str (trimSpaces s)
  | c => c

/-- Numeric value of a digit string, most significant first. -/
def digitsVal (l : List Char) : Nat :=
  l.foldl (fun acc ch => 10 * acc + (ch.toNat - Char.toNat '0')) 0

def parseDigits (l : List Char) : Option Nat :=
  if l ≠ [] ∧ l.all Char.isDigit then some (digitsVal l) else none

def sparkCastIntAux : List Char → Option Int
  | [] => none
  | ch :: rest =>
    if ch = '-' then (parseDigits rest).map (fun n => -(n : Int))
    else if ch = '+' then (parseDigits rest).map (fun n => (n : Int))
    else (parseDigits (ch :: rest)).map (fun n => (n : Int))

/-- Spark's non-ANSI `CAST(string AS INT)`: trim whitespace, accept an
optionally signed digit string, otherwise null.  (The overflow-to-null
case of the engine is not modelled; all values considered here are
small.) -/
def sparkCastInt (s : String) : Option Int :=
  sparkCastIntAux (((s.toList.dropWhile Char.isWhitespace).reverse.dropWhile
    Char.isWhitespace).reverse)

/-- `.cast(IntegerType())` on a cell.  The source only applies it to
string columns read from CSV (or already-null cells); other
constructors do not occur there and are sent to the typed null. -/
def castIntCell : Cell → Cell
  | Cell.str s =>
    match sparkCastInt s with
    | some n => Cell.int n
    | none => Cell.null SparkType.integer
  | Cell.int n => Cell.int n
  | _ => Cell.null SparkType.integer

/-- Line 193-194 of the source: `capacity` is cast to integer directly,
with no character stripping. -/
def coerce_capacity (df : Df) : Df :=
  if "capacity" ∈ columnsOf df then mapColumn df "capacity" castIntCell else df

/-- Line 195-196 of the source: `license_number` is stripped of
non-digits by `regexp_replace` and then cast to integer. -/
def coerce_license_number (df : Df) : Df :=
  if "license_number" ∈ columnsOf df then
    mapColumn df "license_number" (fun c => castIntCell (regexpReplaceNonDigit c))
  else df

def splitCharAux (sep : Char) : List Char → List Char → List String
  | [], acc => [String.mk acc.reverse]
  | ch :: rest, acc =>
    if ch = sep then String.mk acc.reverse :: splitCharAux sep rest []
    else splitCharAux sep rest (ch :: acc)

/-- Split on every occurrence of a single character, keeping empty
tokens (Java `split` with limit -1 on a one-character pattern): the
empty string yields `[""]`. -/
def splitOnChar (sep : Char) (s : String) : List String :=
  splitCharAux sep s.toList []

/-- Spark `split(col, ' ')`: Java regex split with limit -1 on the
single-space pattern.  Empty tokens are kept (leading, internal from
runs of spaces, and trailing). -/
def splitOnSingleSpace (s : String) : List String :=
  splitOnChar ' ' s

/-- The `split(col(licensee_name), ' ')` expression of the source:
null on a null input. -/
def namePartsOf : Option Cell → Option (List String)
  | some (Cell.str s) => some (splitOnSingleSpace s)
  | _ => none

/-- `col('name_parts').getItem(0)` of the source: token 0, or null when
the array is null (`getItem` of a null array is a null string). -/
def firstNameCell (v : Option Cell) : Cell :=
  match (namePartsOf v).bind (fun l => l[0]?) with
  | some t => Cell.str t
  | none => Cell.null SparkType.string

/-- `when(col('name_parts').getItem(1).isNotNull(), ...).otherwise(lit(''))`
of the source: token 1 when it exists, and the empty string both when
the token is missing and when the whole array is null. -/
def lastNameCell (v : Option Cell) : Cell :=
  match (namePartsOf v).bind (fun l => l[1]?) with
  | some t => Cell.str t
  | none => Cell.str ""

/-- Lines 175-183 of the source: trim `licensee_name` in place, split
it on the single-space pattern, take token 0 as `first_name` and token
1 (when present, else the empty string) as `last_name`.  The
intermediate `name_parts` array column, added and immediately dropped
by the source, is inlined.  The branch guard `'licensee_name' in
df.columns` is the source's; after `transform_df` it is always true. -/
def name_split (df : Df) : Df :=
  if "licensee_name" ∈ columnsOf df then
    withColumn
      (withColumn (mapColumn df "licensee_name" trimCell) "first_name"
        (firstNameCell (getVal (mapColumn df "licensee_name" trimCell) "licensee_name")))
      "last_name"
      (lastNameCell (getVal (mapColumn df "licensee_name" trimCell) "licensee_name"))
  else df

/-- `concat_ws(sep, arr)` over an array: join the non-null elements. -/
def concatWs (sep : String) (elems : List (Option String)) : String :=
  String.intercalate sep (elems.filterMap id)

/-- `combine_age_columns(df, age_columns)` of the source (variant A,
source2): `concat_ws(', ', *cols)` over the present age columns — the
non-null string values joined in input order — then the source columns
are dropped. -/
def combine_age_columns (df : Df) (age_columns : List String) : Df :=
  let vals : List (Option String) :=
    (age_columns.filter (fun c => decide (c ∈ columnsOf df))).map (fun c =>
      match getVal df c with
      | some (Cell.str s) => some s
      | _ => none)
  let df1 := withColumn df "ages_served" (Cell.str (concatWs ", " vals))
  dropColumns df1 age_columns

/-- `combine_age_columns_source3(df, age_columns)` of the source
(variant B, source3): for each present flag column, the expression
`when(col == 'Y', lit(col_name))` — the column's own name when the flag
equals `'Y'`, null otherwise — collected by `array`, joined by
`concat_ws(', ', ...)` which skips the nulls, then the flag columns are
dropped.  The intermediate `ages_array` column, added and immediately
dropped by the source, is inlined. -/
def combine_age_columns_source3 (df : Df) (age_columns : List String) : Df :=
  let age_exprs : List (Option String) :=
    (age_columns.filter (fun c => decide (c ∈ columnsOf df))).map (fun c =>
      if getVal df c = some (Cell.str "Y") then some c else none)
  let df1 := withColumn df "ages_served" (Cell.str (concatWs ", " age_exprs))
  dropColumns df1 age_columns

/-- Closed witness for `clean_phone_frame`: on a concrete two-column row
the `phone2` column survives `clean_phone` unchanged. -/
theorem clean_phone_frame_witness :
    getVal (clean_phone [("phone", Cell.str "(555) 123-4567"), ("phone2", Cell.str "(555) 999-0000")] "phone") "phone2"
      = getVal [("phone", Cell.str "(555) 123-4567"), ("phone2", Cell.str "(555) 999-0000")] "phone2" :=
  (clean_phone_frame [("phone", Cell.str "(555) 123-4567"), ("phone2", Cell.str "(555) 999-0000")]
    "phone2" (by decide)).1

theorem not_whitespace_of_isDigit {c : Char} (h : c.isDigit = true) :
    c.isWhitespace = false := by
  by_contra hw
  have hw2 : c.isWhitespace = true := by
    cases hcw : c.isWhitespace
    · exact absurd hcw hw
    · rfl
  simp [Char.isWhitespace] at hw2
  rcases hw2 with ((h1 | h1) | h1) | h1 <;> (subst h1; exact absurd h (by decide))

theorem dropWhile_eq_self_of_all_false {p : Char → Bool} :
    ∀ l : List Char, (∀ x ∈ l, p x = false) → l.dropWhile p = l
  | [], _ => rfl
  | a :: l, h => by
    rw [List.dropWhile_cons, h a (List.mem_cons_self a l)]
    simp

theorem sparkCastInt_digits (l : List Char) (hne : l ≠ [])
    (hdig : ∀ x ∈ l, x.isDigit = true) :
    sparkCastInt (String.mk l) = some ((digitsVal l : Nat) : Int) := by
  have hnw : ∀ x ∈ l, x.isWhitespace = false :=
    fun x hx => not_whitespace_of_isDigit (hdig x hx)
  have h1 : (String.mk l).toList = l := rfl
  rw [sparkCastInt, h1, dropWhile_eq_self_of_all_false l hnw,
    dropWhile_eq_self_of_all_false l.reverse
      (fun x hx => hnw x (List.mem_reverse.mp hx)),
    List.reverse_reverse]
  cases l with
  | nil => exact absurd rfl hne
  | cons ch rest =>
    have hch : ch.isDigit = true := hdig ch (List.mem_cons_self ch rest)
    have hm : ¬ ch = '-' := fun hh => by rw [hh] at hch; exact absurd hch (by decide)
    have hp : ¬ ch = '+' := fun hh => by rw [hh] at hch; exact absurd hch (by decide)
    rw [sparkCastIntAux, if_neg hm, if_neg hp, parseDigits,
      if_pos ⟨by simp, by rw [List.all_eq_true]; exact hdig⟩]
    rfl

theorem sparkCastInt_empty : sparkCastInt "" = none := rfl

/-- C7 counterexample to the claim as stated: the `capacity` value
`"1,200"` is cast directly (line 193-194 of the source) and becomes
null, while stripping non-digits first — what the claim prescribes for
every numeric field — would give 1200. -/
theorem numericCoerce_capacity_counterexample :
    getVal (coerce_capacity [("capacity", Cell.str "1,200")]) "capacity"
        = some (Cell.null SparkType.integer)
    ∧ castIntCell (regexpReplaceNonDigit (Cell.str "1,200")) = Cell.int 1200 := by
  constructor
  · rfl
  · rfl

/-- C7 (amended): `license_number` is stripped of non-digit characters
and then cast: a value holding at least one digit yields the integer
formed by its digits in order, a value with no digit yields the typed
null, and a null stays null; `capacity` is cast directly with no
stripping.  Both steps are total functions of the cell — a failed parse
is a null, never an error. -/
theorem numericCoerce_spec (s : String) :
    (s.toList.any Char.isDigit = true →
      castIntCell (regexpReplaceNonDigit (Cell.str s))
        = Cell.int ((digitsVal (s.toList.filter Char.isDigit) : Nat) : Int))
    ∧ (s.toList.any Char.isDigit = false →
      castIntCell (regexpReplaceNonDigit (Cell.str s)) = Cell.null SparkType.integer)
    ∧ (∀ t, castIntCell (regexpReplaceNonDigit (Cell.null t)) = Cell.null SparkType.integer)
    ∧ (∀ df : Df, "license_number" ∈ columnsOf df →
        getVal (coerce_license_number df) "license_number"
          = (getVal df "license_number").map (fun c => castIntCell (regexpReplaceNonDigit c)))
    ∧ (∀ df : Df, "capacity" ∈ columnsOf df →
        getVal (coerce_capacity df) "capacity"
          = (getVal df "capacity").map castIntCell) := by
  refine ⟨?_, ?_, fun t => rfl, ?_, ?_⟩
  · intro hany
    have hne : s.toList.filter Char.isDigit ≠ [] := by
      intro hnil
      rcases List.any_eq_true.mp hany with ⟨x, hx, hdx⟩
      have : x ∈ s.toList.filter Char.isDigit := List.mem_filter.mpr ⟨hx, hdx⟩
      rw [hnil] at this
      exact absurd this (List.not_mem_nil x)
    have hdig : ∀ x ∈ s.toList.filter Char.isDigit, x.isDigit = true :=
      fun x hx => (List.mem_filter.mp hx).2
    show (match sparkCastInt (stripNonDigits s) with
      | some n => Cell.int n
      | none => Cell.null SparkType.integer) = _
    rw [stripNonDigits, sparkCastInt_digits _ hne hdig]
  · intro hnone
    have hnil : s.toList.filter Char.isDigit = [] := by
      rw [List.filter_eq_nil_iff]
      intro a ha
      have := List.any_eq_true.not.mp (by rw [hnone]; exact Bool.false_ne_true)
      push_neg at this
      exact by simpa using this a ha
    show (match sparkCastInt (stripNonDigits s) with
      | some n => Cell.int n
      | none => Cell.null SparkType.integer) = _
    rw [stripNonDigits, hnil]
    rfl
  · intro df hmem
    rw [coerce_license_number, if_pos hmem, getVal_mapColumn, if_pos rfl]
  · intro df hmem
    rw [coerce_capacity, if_pos hmem, getVal_mapColumn, if_pos rfl]

/-- Closed witness for `numericCoerce_spec` at `"LIC-123"`: stripping
then casting yields the integer 123. -/
theorem numericCoerce_spec_witness :
    ("LIC-123".toList.any Char.isDigit = true)
    ∧ castIntCell (regexpReplaceNonDigit (Cell.str "LIC-123")) = Cell.int 123 := by
  refine ⟨by decide, ?_⟩
  have h := (numericCoerce_spec "LIC-123").1 (by decide)
  rw [h]
  rfl

/-- C6 counterexample to the claim as stated: with a null
`licensee_name` the name-splitting block of `process_csv_file` is not
skipped and is not a no-op — it overwrites `first_name` with a null and
`last_name` with the empty string, here clobbering prior values. -/
theorem nameSplit_null_counterexample :
    name_split [("licensee_name", Cell.null SparkType.string),
        ("first_name", Cell.str "Pat"), ("last_name", Cell.str "Smith")]
      ≠ [("licensee_name", Cell.null SparkType.string),
        ("first_name", Cell.str "Pat"), ("last_name", Cell.str "Smith")]
    ∧ getVal (name_split [("licensee_name", Cell.null SparkType.string),
        ("first_name", Cell.str "Pat"), ("last_name", Cell.str "Smith")]) "last_name"
      = some (Cell.str "")
    ∧ getVal (name_split [("licensee_name", Cell.null SparkType.string),
        ("first_name", Cell.str "Pat"), ("last_name", Cell.str "Smith")]) "first_name"
      = some (Cell.null SparkType.string) := by
  refine ⟨?_, rfl, rfl⟩
  intro h
  have h2 := congrArg (fun d => getVal d "last_name") h
  simp only [getVal] at h2
  exact absurd (by injection h2) (by decide)

/-- C6 (amended): the name-splitting block runs whenever
`licensee_name` is a column (after `transform_df`, always).  On a
non-null name it trims and splits on single-space boundaries, token 0
becoming `first_name` and token 1 — when present, else the empty
string — becoming `last_name`, discarding later tokens; on a null name
it is not skipped: `first_name` becomes a null and `last_name` the
empty string. -/
theorem nameSplit_spec (df : Df) (hmem : "licensee_name" ∈ columnsOf df) :
    (∀ s, getVal df "licensee_name" = some (Cell.str s) →
      getVal (name_split df) "first_name"
          = some (match (splitOnSingleSpace (trimSpaces s))[0]? with
              | some t => Cell.str t
              | none => Cell.null SparkType.string)
        ∧ getVal (name_split df) "last_name"
          = some (match (splitOnSingleSpace (trimSpaces s))[1]? with
              | some t => Cell.str t
              | none => Cell.str ""))
    ∧ (∀ t, getVal df "licensee_name" = some (Cell.null t) →
      getVal (name_split df) "first_name" = some (Cell.null SparkType.string)
        ∧ getVal (name_split df) "last_name" = some (Cell.str "")) := by
  have htrim : ∀ v, getVal df "licensee_name" = some v →
      getVal (mapColumn df "licensee_name" trimCell) "licensee_name" = some (trimCell v) := by
    intro v hv
    rw [getVal_mapColumn, if_pos rfl, hv]
    rfl
  constructor
  · intro s hs
    have h1 := htrim _ hs
    constructor
    · rw [name_split, if_pos hmem, getVal_withColumn, if_neg (by decide),
        getVal_withColumn, if_pos rfl, h1]
      rfl
    · rw [name_split, if_pos hmem, getVal_withColumn, if_pos rfl, h1]
      rfl
  · intro t ht
    have h1 := htrim _ ht
    constructor
    · rw [name_split, if_pos hmem, getVal_withColumn, if_neg (by decide),
        getVal_withColumn, if_pos rfl, h1]
      rfl
    · rw [name_split, if_pos hmem, getVal_withColumn, if_pos rfl, h1]
      rfl

/-- Closed witness for `nameSplit_spec`: `" Jane Doe "` is trimmed and
split, giving first name `"Jane"` and last name `"Doe"`; `"Madonna"`
gives last name `""`. -/
theorem nameSplit_spec_witness :
    getVal (name_split [("licensee_name", Cell.str " Jane Doe ")]) "first_name"
        = some (Cell.str "Jane")
    ∧ getVal (name_split [("licensee_name", Cell.str " Jane Doe ")]) "last_name"
        = some (Cell.str "Doe")
    ∧ getVal (name_split [("licensee_name", Cell.str "Madonna")]) "last_name"
        = some (Cell.str "") := by
  have h1 := (nameSplit_spec [("licensee_name", Cell.str " Jane Doe ")]
      (by decide)).1 " Jane Doe " rfl
  have h2 := (nameSplit_spec [("licensee_name", Cell.str "Madonna")]
      (by decide)).1 "Madonna" rfl
  refine ⟨?_, ?_, ?_⟩
  · rw [h1.1]; rfl
  · rw [h1.2]; rfl
  · rw [h2.2]; rfl

theorem filterMap_guard (q : String → Prop) [DecidablePred q] :
    ∀ l : List String, (l.map (fun c => if q c then some c else none)).filterMap id
      = l.filter (fun c => decide (q c))
  | [] => rfl
  | a :: l => by
    by_cases hq : q a <;>
      simp [List.filterMap_cons, hq, filterMap_guard q l]

/-- C9: `combine_age_columns_source3` (ageConsolidate variant B): for
an ordered list of flag columns all present in the row, the columns
whose value equals the sentinel `'Y'` contribute their own names, which
are joined in input-list order with `", "` into `ages_served`, and the
flag columns are dropped from the row. -/
theorem ageConsolidate_flag_spec (df : Df) (age_columns : List String)
    (hcols : ∀ c ∈ age_columns, c ∈ columnsOf df)
    (hns : "ages_served" ∉ age_columns) :
    getVal (combine_age_columns_source3 df age_columns) "ages_served"
      = some (Cell.str (String.intercalate ", "
          (age_columns.filter (fun c => decide (getVal df c = some (Cell.str "Y"))))))
    ∧ ∀ c ∈ age_columns, c ∉ columnsOf (combine_age_columns_source3 df age_columns) := by
  constructor
  · rw [combine_age_columns_source3, getVal_dropColumns_not_mem _ _ hns,
      getVal_withColumn, if_pos rfl]
    have hfilter : age_columns.filter (fun c => decide (c ∈ columnsOf df)) = age_columns :=
      List.filter_eq_self.mpr (fun c hc => decide_eq_true (hcols c hc))
    rw [concatWs, hfilter, filterMap_guard]
  · intro c hc
    exact not_mem_columnsOf_dropColumns age_columns c hc _

/-- Closed witness for `ageConsolidate_flag_spec`: flags
`Infant='Y', Toddler='N'` give `ages_served = "Infant"` and both flag
columns are dropped. -/
theorem ageConsolidate_flag_witness :
    getVal (combine_age_columns_source3
        [("Infant", Cell.str "Y"), ("Toddler", Cell.str "N")] ["Infant", "Toddler"])
      "ages_served" = some (Cell.str "Infant")
    ∧ "Toddler" ∉ columnsOf (combine_age_columns_source3
        [("Infant", Cell.str "Y"), ("Toddler", Cell.str "N")] ["Infant", "Toddler"]) := by
  have h := ageConsolidate_flag_spec
    [("Infant", Cell.str "Y"), ("Toddler", Cell.str "N")] ["Infant", "Toddler"]
    (by decide) (by decide)
  refine ⟨?_, h.2 "Toddler" (by decide)⟩
  rw [h.1]
  rfl

/-- The window partition key of `deduplicate_dataframe`:
`Window.partitionBy('phone', 'address1')`.  SQL window partitioning
groups by value with nulls comparing equal, which the model realises by
grouping on the cell values themselves (`Cell.null t` is one value). -/
def dedupKey (r : Df) : Option Cell × Option Cell :=
  (getVal r "phone", getVal r "address1")

/-- The `license_issued` value of a row as seen by the ordering
`col('license_issued').desc()`.  After `process_csv_file` the column is
`DateType`, so each cell is a date or a null; a null (or a missing
column, which cannot occur after the union) behaves as null. -/
def licDate (r : Df) : Option Nat :=
  match getVal r "license_issued" with
  | some (Cell.date d) => some d
  | _ => none

/-- The strict "ranks higher" relation of
`orderBy(col('license_issued').desc())`: a later date ranks higher, and
any date ranks higher than null (Spark puts nulls last under `desc`). -/
def dateLater : Option Nat → Option Nat → Bool
  | some a, some b => decide (b < a)
  | some _, none => true
  | none, _ => false

def rowLater (a b : Df) : Bool := dateLater (licDate a) (licDate b)

/-- Scan of a window partition for the `row_number() == 1` row: keep the
current best, replacing it only when a strictly later row appears.
Spark leaves the choice among `license_issued` ties unspecified; the
model fixes first occurrence in combined-input order. -/
def pick1 (c : Nat × Df) : List (Nat × Df) → Nat × Df
  | [] => c
  | r :: rest => pick1 (if rowLater r.2 c.2 then r else c) rest

def pickSurvivor : List (Nat × Df) → Option (Nat × Df)
  | [] => none
  | r :: rest => some (pick1 r rest)

/-- `deduplicate_dataframe(df_all)` of the source: partition the rows
by `(phone, address1)`, rank each partition by `license_issued`
descending with nulls last, keep only the `row_number() == 1` row of
each partition.  Rows are indexed (`enum`) because `row_number` keeps
exactly one physical row per partition even among equal rows. -/
def deduplicate_dataframe (t : Table) : Table :=
  (t.enum.filter (fun p =>
      decide (pickSurvivor
        (t.enum.filter (fun q => decide (dedupKey q.2 = dedupKey p.2))) = some p))).map
    Prod.snd

theorem dateLater_irrefl (x : Option Nat) : dateLater x x = false := by
  cases x with
  | none => rfl
  | some a => simp [dateLater]

theorem dateLater_neg_trans {x y z : Option Nat} (h : dateLater x z = true) :
    dateLater x y = true ∨ dateLater y z = true := by
  cases x with
  | none => simp [dateLater] at h
  | some a =>
    cases y with
    | none => exact Or.inl rfl
    | some b =>
      cases z with
      | none => exact Or.inr rfl
      | some c =>
        simp [dateLater] at h ⊢
        omega

theorem dateLater_asymm {x y : Option Nat} (h : dateLater x y = true) :
    dateLater y x = false := by
  cases x with
  | none => simp [dateLater] at h
  | some a =>
    cases y with
    | none => rfl
    | some b =>
      simp [dateLater] at h ⊢
      omega

theorem pick1_mem (c : Nat × Df) : ∀ l : List (Nat × Df), pick1 c l ∈ c :: l
  | [] => List.mem_cons_self c []
  | r :: rest => by
    rw [pick1]
    by_cases hr : rowLater r.2 c.2 = true
    · rw [if_pos hr]
      rcases List.mem_cons.mp (pick1_mem r rest) with h | h
      · rw [h]
        exact List.mem_cons.mpr (Or.inr (List.mem_cons_self r rest))
      · exact List.mem_cons.mpr (Or.inr (List.mem_cons_of_mem r h))
    · rw [if_neg hr]
      rcases List.mem_cons.mp (pick1_mem c rest) with h | h
      · rw [h]
        exact List.mem_cons_self c _
      · exact List.mem_cons.mpr (Or.inr (List.mem_cons_of_mem r h))

theorem pick1_max : ∀ (l : List (Nat × Df)) (c : Nat × Df),
    ∀ q ∈ c :: l, rowLater q.2 (pick1 c l).2 = false
  | [], c, q, hq => by
    rcases List.mem_cons.mp hq with h | h
    · rw [h, pick1]
      exact dateLater_irrefl _
    · exact absurd h (List.not_mem_nil q)
  | r :: rest, c, q, hq => by
    rw [pick1]
    by_cases hr : rowLater r.2 c.2 = true
    · rw [if_pos hr]
      rcases List.mem_cons.mp hq with h | h
      · rw [h]
        by_contra hcon
        have hq2 : dateLater (licDate c.2) (licDate (pick1 r rest).2) = true := by
          cases hcc : rowLater c.2 (pick1 r rest).2
          · exact absurd hcc hcon
          · exact hcc
        have hrw : dateLater (licDate r.2) (licDate (pick1 r rest).2) = false :=
          pick1_max rest r r (List.mem_cons_self r rest)
        rcases dateLater_neg_trans (y := licDate r.2) hq2 with h1 | h1
        · have hasym : dateLater (licDate c.2) (licDate r.2) = false := dateLater_asymm hr
          exact absurd (h1.symm.trans hasym) (by decide)
        · exact absurd (h1.symm.trans hrw) (by decide)
      · exact pick1_max rest r q h
    · rw [if_neg hr]
      rcases List.mem_cons.mp hq with h | h
      · rw [h]
        exact pick1_max rest c c (List.mem_cons_self c rest)
      · rcases List.mem_cons.mp h with h2 | h2
        · rw [h2]
          by_contra hcon
          have hq2 : dateLater (licDate r.2) (licDate (pick1 c rest).2) = true := by
            cases hcc : rowLater r.2 (pick1 c rest).2
            · exact absurd hcc hcon
            · exact hcc
          rcases dateLater_neg_trans (y := licDate c.2) hq2 with h1 | h1
          · have hr2 : dateLater (licDate r.2) (licDate c.2) = false := by
              cases hcc : rowLater r.2 c.2
              · exact hcc
              · exact absurd hcc hr
            exact absurd (h1.symm.trans hr2) (by decide)
          · have hcw : dateLater (licDate c.2) (licDate (pick1 c rest).2) = false :=
              pick1_max rest c c (List.mem_cons_self c rest)
            exact absurd (h1.symm.trans hcw) (by decide)
        · exact pick1_max rest c q (List.mem_cons_of_mem c h2)

theorem pickSurvivor_some {g : List (Nat × Df)} (hne : g ≠ []) :
    ∃ w, pickSurvivor g = some w ∧ w ∈ g
      ∧ ∀ q ∈ g, rowLater q.2 w.2 = false := by
  cases g with
  | nil => exact absurd rfl hne
  | cons r rest =>
    exact ⟨pick1 r rest, rfl, pick1_mem r rest, pick1_max rest r⟩

theorem exists_enum_pair {t : Table} {r : Df} (hr : r ∈ t) : ∃ i, (i, r) ∈ t.enum := by
  have h1 : r ∈ t.enum.map Prod.snd := by
    rw [List.enum_map_snd]
    exact hr
  rcases List.mem_map.mp h1 with ⟨q, hq, hq2⟩
  obtain ⟨i, r2⟩ := q
  cases hq2
  exact ⟨i, hq⟩

theorem snd_mem_of_mem_enum {t : Table} {q : Nat × Df} (hq : q ∈ t.enum) : q.2 ∈ t := by
  have h1 : q.2 ∈ t.enum.map Prod.snd := List.mem_map_of_mem Prod.snd hq
  rwa [List.enum_map_snd] at h1

theorem enum_nodup (t : Table) : t.enum.Nodup :=
  List.Nodup.of_map Prod.fst (List.nodup_enum_map_fst t)

theorem filter_eq_singleton_of_nodup {α : Type} {p : α → Bool} {l : List α}
    (hnd : l.Nodup) {s : α} (hs : s ∈ l) (hps : p s = true)
    (honly : ∀ x ∈ l, p x = true → x = s) : l.filter p = [s] := by
  induction l with
  | nil => exact absurd hs (List.not_mem_nil s)
  | cons a l ih =>
    have hnd2 := List.nodup_cons.mp hnd
    by_cases hpa : p a = true
    · have has : a = s := honly a (List.mem_cons_self a l) hpa
      rw [List.filter_cons_of_pos hpa]
      have hfl : l.filter p = [] := by
        rw [List.filter_eq_nil_iff]
        intro x hx hpx
        have hxs : x = s := honly x (List.mem_cons_of_mem a hx) hpx
        exact hnd2.1 ((hxs.trans has.symm) ▸ hx)
      rw [hfl, has]
    · have hsl : s ∈ l := by
        rcases List.mem_cons.mp hs with h | h
        · exact absurd (h ▸ hps) hpa
        · exact h
      rw [List.filter_cons_of_neg hpa]
      exact ih hnd2.2 hsl (fun x hx hpx => honly x (List.mem_cons_of_mem a hx) hpx)

/-- The behaviour of `deduplicate_dataframe` on one partition: when the
combined input has a row with partition key `k`, the output holds
exactly one row with key `k`, drawn from the input, and no input row of
the partition has a strictly later `license_issued` (under the
desc-nulls-last order). -/
theorem dedup_group_char (t : Table) (k : Option Cell × Option Cell)
    (hex : ∃ r, r ∈ t ∧ dedupKey r = k) :
    ∃ s, (deduplicate_dataframe t).filter (fun r => decide (dedupKey r = k)) = [s]
      ∧ s ∈ t ∧ dedupKey s = k
      ∧ ∀ r ∈ t, dedupKey r = k → dateLater (licDate r) (licDate s) = false := by
  obtain ⟨r0, hr0t, hr0k⟩ := hex
  obtain ⟨i0, hi0⟩ := exists_enum_pair hr0t
  have hG0 : (i0, r0) ∈ t.enum.filter (fun q => decide (dedupKey q.2 = k)) :=
    List.mem_filter.mpr ⟨hi0, decide_eq_true hr0k⟩
  have hGne : t.enum.filter (fun q => decide (dedupKey q.2 = k)) ≠ [] := by
    intro hG
    rw [hG] at hG0
    exact absurd hG0 (List.not_mem_nil _)
  obtain ⟨w, hwp, hwG, hwmax⟩ := pickSurvivor_some hGne
  have hwenum : w ∈ t.enum := (List.mem_filter.mp hwG).1
  have hwk : dedupKey w.2 = k := of_decide_eq_true (List.mem_filter.mp hwG).2
  have hcongr : ∀ x : Nat × Df, dedupKey x.2 = k →
      t.enum.filter (fun q => decide (dedupKey q.2 = dedupKey x.2))
        = t.enum.filter (fun q => decide (dedupKey q.2 = k)) :=
    fun x hx => List.filter_congr (fun q _ => by rw [hx])
  refine ⟨w.2, ?_, snd_mem_of_mem_enum hwenum, hwk, ?_⟩
  · rw [deduplicate_dataframe, List.filter_map, List.filter_filter]
    have hsing : t.enum.filter (fun a =>
        ((fun r => decide (dedupKey r = k)) ∘ Prod.snd) a
          && decide (pickSurvivor (t.enum.filter
              (fun q => decide (dedupKey q.2 = dedupKey a.2))) = some a)) = [w] := by
      apply filter_eq_singleton_of_nodup (enum_nodup t) hwenum
      · rw [Bool.and_eq_true]
        exact ⟨decide_eq_true hwk, decide_eq_true (by rw [hcongr w hwk]; exact hwp)⟩
      · intro x hx hpx
        rw [Bool.and_eq_true] at hpx
        have hxk : dedupKey x.2 = k := of_decide_eq_true hpx.1
        have hxp : pickSurvivor (t.enum.filter
            (fun q => decide (dedupKey q.2 = dedupKey x.2))) = some x :=
          of_decide_eq_true hpx.2
        rw [hcongr x hxk, hwp] at hxp
        exact (Option.some.injEq _ _ ▸ hxp).symm
    rw [hsing]
    rfl
  · intro r hrt hrk
    obtain ⟨i, hi⟩ := exists_enum_pair hrt
    have hmem : (i, r) ∈ t.enum.filter (fun q => decide (dedupKey q.2 = k)) :=
      List.mem_filter.mpr ⟨hi, decide_eq_true hrk⟩
    exact hwmax (i, r) hmem

/-- Whether a cell is a non-null value. -/
def cellNonNull : Cell → Bool
  | Cell.null _ => false
  | _ => true

/-- C3: within every group of rows sharing one non-null identity key
`(phone, address1)`, exactly one row survives `deduplicate_dataframe`;
it comes from the group, no group member has a strictly later
`license_issued` (desc order, nulls last), and whenever the group has
any non-null `license_issued` the survivor's is non-null — null dates
rank below every non-null date. -/
theorem dedup_nonnull_group_survivor (t : Table) (k : Option Cell × Option Cell)
    (_hp : ∃ cp, k.1 = some cp ∧ cellNonNull cp = true)
    (_ha : ∃ ca, k.2 = some ca ∧ cellNonNull ca = true)
    (hex : ∃ r, r ∈ t ∧ dedupKey r = k) :
    ∃ s, (deduplicate_dataframe t).filter (fun r => decide (dedupKey r = k)) = [s]
      ∧ s ∈ t ∧ dedupKey s = k
      ∧ (∀ r ∈ t, dedupKey r = k → dateLater (licDate r) (licDate s) = false)
      ∧ ((∃ r, r ∈ t ∧ dedupKey r = k ∧ licDate r ≠ none) → licDate s ≠ none) := by
  obtain ⟨s, h1, h2, h3, h4⟩ := dedup_group_char t k hex
  refine ⟨s, h1, h2, h3, h4, ?_⟩
  rintro ⟨r, hrt, hrk, hrd⟩ hsd
  obtain ⟨a, hra⟩ : ∃ a, licDate r = some a := by
    cases hld : licDate r with
    | none => exact absurd hld hrd
    | some a => exact ⟨a, rfl⟩
  have hmax := h4 r hrt hrk
  rw [hra, hsd] at hmax
  simp [dateLater] at hmax

/-- Closed witness for `dedup_nonnull_group_survivor` at the spec's
example: identical key `("5551234567", "1 Main St")` and dates
2020-01-01 vs 2021-01-01. -/
theorem dedup_nonnull_group_survivor_witness :
    ∃ s, (deduplicate_dataframe
        [[("phone", Cell.str "5551234567"), ("address1", Cell.str "1 Main St"),
          ("license_issued", Cell.date 20200101), ("provider_id", Cell.str "p1")],
         [("phone", Cell.str "5551234567"), ("address1", Cell.str "1 Main St"),
          ("license_issued", Cell.date 20210101), ("provider_id", Cell.str "p2")]]).filter
        (fun r => decide (dedupKey r
          = (some (Cell.str "5551234567"), some (Cell.str "1 Main St")))) = [s]
      ∧ s ∈
        [[("phone", Cell.str "5551234567"), ("address1", Cell.str "1 Main St"),
          ("license_issued", Cell.date 20200101), ("provider_id", Cell.str "p1")],
         [("phone", Cell.str "5551234567"), ("address1", Cell.str "1 Main St"),
          ("license_issued", Cell.date 20210101), ("provider_id", Cell.str "p2")]]
      ∧ dedupKey s = (some (Cell.str "5551234567"), some (Cell.str "1 Main St"))
      ∧ (∀ r ∈
        [[("phone", Cell.str "5551234567"), ("address1", Cell.str "1 Main St"),
          ("license_issued", Cell.date 20200101), ("provider_id", Cell.str "p1")],
         [("phone", Cell.str "5551234567"), ("address1", Cell.str "1 Main St"),
          ("license_issued", Cell.date 20210101), ("provider_id", Cell.str "p2")]],
        dedupKey r = (some (Cell.str "5551234567"), some (Cell.str "1 Main St"))
          → dateLater (licDate r) (licDate s) = false)
      ∧ ((∃ r, r ∈
        [[("phone", Cell.str "5551234567"), ("address1", Cell.str "1 Main St"),
          ("license_issued", Cell.date 20200101), ("provider_id", Cell.str "p1")],
         [("phone", Cell.str "5551234567"), ("address1", Cell.str "1 Main St"),
          ("license_issued", Cell.date 20210101), ("provider_id", Cell.str "p2")]]
          ∧ dedupKey r = (some (Cell.str "5551234567"), some (Cell.str "1 Main St"))
          ∧ licDate r ≠ none) → licDate s ≠ none) :=
  dedup_nonnull_group_survivor _ _
    ⟨Cell.str "5551234567", rfl, rfl⟩
    ⟨Cell.str "1 Main St", rfl, rfl⟩
    ⟨[("phone", Cell.str "5551234567"), ("address1", Cell.str "1 Main St"),
      ("license_issued", Cell.date 20200101), ("provider_id", Cell.str "p1")],
      by decide, by decide⟩

/-- C1 counterexample to the claim as stated: two rows whose `phone` is
null and whose `address1` agrees do NOT both pass through untouched —
window partitioning groups the shared nulls, `row_number` keeps rank 1
only, and the 2020 row is dropped. -/
theorem dedup_null_passthrough_counterexample :
    deduplicate_dataframe
        [[("phone", Cell.null SparkType.string), ("address1", Cell.str "1 Main St"),
          ("license_issued", Cell.date 20200101), ("provider_id", Cell.str "A")],
         [("phone", Cell.null SparkType.string), ("address1", Cell.str "1 Main St"),
          ("license_issued", Cell.date 20210101), ("provider_id", Cell.str "B")]]
      = [[("phone", Cell.null SparkType.string), ("address1", Cell.str "1 Main St"),
          ("license_issued", Cell.date 20210101), ("provider_id", Cell.str "B")]]
    ∧ [("phone", Cell.null SparkType.string), ("address1", Cell.str "1 Main St"),
        ("license_issued", Cell.date 20200101), ("provider_id", Cell.str "A")]
      ∉ deduplicate_dataframe
        [[("phone", Cell.null SparkType.string), ("address1", Cell.str "1 Main St"),
          ("license_issued", Cell.date 20200101), ("provider_id", Cell.str "A")],
         [("phone", Cell.null SparkType.string), ("address1", Cell.str "1 Main St"),
          ("license_issued", Cell.date 20210101), ("provider_id", Cell.str "B")]] := by
  constructor
  · rfl
  · decide

/-- C1 (amended): a record whose identity-key component `phone` (or
`address1`) is null is NOT passed through untouched: SQL window
partitioning treats nulls as equal, so such records are grouped with
every record carrying the identical (null-included) key and
deduplicated like any other group — exactly one survivor, carrying a
maximal `license_issued`. -/
theorem dedup_null_key_grouped (t : Table) (k : Option Cell × Option Cell)
    (_hnull : (∃ tp, k.1 = some (Cell.null tp)) ∨ (∃ ta, k.2 = some (Cell.null ta)))
    (hex : ∃ r, r ∈ t ∧ dedupKey r = k) :
    ∃ s, (deduplicate_dataframe t).filter (fun r => decide (dedupKey r = k)) = [s]
      ∧ s ∈ t ∧ dedupKey s = k
      ∧ ∀ r ∈ t, dedupKey r = k → dateLater (licDate r) (licDate s) = false :=
  dedup_group_char t k hex

/-- Closed witness for `dedup_null_key_grouped`: two null-phone rows at
`"2 Oak Ave"` form one group. -/
theorem dedup_null_key_grouped_witness :
    ∃ s, (deduplicate_dataframe
        [[("phone", Cell.null SparkType.string), ("address1", Cell.str "2 Oak Ave"),
          ("license_issued", Cell.null SparkType.date)],
         [("phone", Cell.null SparkType.string), ("address1", Cell.str "2 Oak Ave"),
          ("license_issued", Cell.date 20190315)]]).filter
        (fun r => decide (dedupKey r
          = (some (Cell.null SparkType.string), some (Cell.str "2 Oak Ave")))) = [s]
      ∧ s ∈
        [[("phone", Cell.null SparkType.string), ("address1", Cell.str "2 Oak Ave"),
          ("license_issued", Cell.null SparkType.date)],
         [("phone", Cell.null SparkType.string), ("address1", Cell.str "2 Oak Ave"),
          ("license_issued", Cell.date 20190315)]]
      ∧ dedupKey s = (some (Cell.null SparkType.string), some (Cell.str "2 Oak Ave"))
      ∧ ∀ r ∈
        [[("phone", Cell.null SparkType.string), ("address1", Cell.str "2 Oak Ave"),
          ("license_issued", Cell.null SparkType.date)],
         [("phone", Cell.null SparkType.string), ("address1", Cell.str "2 Oak Ave"),
          ("license_issued", Cell.date 20190315)]],
        dedupKey r = (some (Cell.null SparkType.string), some (Cell.str "2 Oak Ave"))
          → dateLater (licDate r) (licDate s) = false :=
  dedup_null_key_grouped _ _
    (Or.inl ⟨SparkType.string, rfl⟩)
    ⟨[("phone", Cell.null SparkType.string), ("address1", Cell.str "2 Oak Ave"),
      ("license_issued", Cell.null SparkType.date)], by decide, by decide⟩

/-- `target_columns` of the source: the canonical output schema, in
order — 33 canonical columns (through `source`) plus the 3 added
metadata columns. -/
def target_columns : List String :=
  ["accepts_financial_aid", "ages_served", "capacity",
   "certificate_expiration_date", "city", "address1", "address2", "company",
   "phone", "phone2", "county", "curriculum_type", "email", "first_name",
   "language", "last_name", "license_status", "license_issued",
   "license_number", "license_renewed", "license_type", "licensee_name",
   "max_age", "min_age", "operator", "provider_id", "schedule", "state",
   "title", "website_address", "zip", "facility_type", "source",
   "etl_load_time", "version_number", "source_file_name"]

/-- `column_types.get(c, StringType())` of the source: the declared
Spark type of each canonical column, string for everything not listed
with another type. -/
def column_types (c : String) : SparkType :=
  if c = "accepts_financial_aid" then SparkType.boolean
  else if c = "capacity" then SparkType.integer
  else if c = "certificate_expiration_date" then SparkType.date
  else if c = "license_issued" then SparkType.date
  else if c = "license_number" then SparkType.integer
  else if c = "license_renewed" then SparkType.date
  else if c = "max_age" then SparkType.integer
  else if c = "min_age" then SparkType.integer
  else if c = "etl_load_time" then SparkType.timestamp
  else SparkType.string

/-- `df.withColumnRenamed(src, tgt)`: rename every column named `src`
to `tgt`, keeping values and positions. -/
def withColumnRenamed (df : Df) (src tgt : String) : Df :=
  df.map (fun p => if p.1 = src then (tgt, p.2) else p)

/-- The renaming loop of `transform_df`: for each `(src, tgt)` pair of
the mapping, in order, rename `src` to `tgt` when `src` is a column. -/
def renameColumns (df : Df) (mapping : List (String × String)) : Df :=
  mapping.foldl
    (fun d m => if m.1 ∈ columnsOf d then withColumnRenamed d m.1 m.2 else d) df

/-- One step of the null-padding loop of `transform_df`: add the target
column as `lit(None).cast(column_types[c])` when it is missing. -/
def padStep (d : Df) (c : String) : Df :=
  if c ∈ columnsOf d then d else withColumn d c (Cell.null (column_types c))

/-- The null-padding loop of `transform_df` over `target_columns`. -/
def padMissing (df : Df) : Df :=
  target_columns.foldl padStep df

/-- `os.path.basename`: the part of the path after the last `/`. -/
def basename (s : String) : String :=
  String.mk ((s.toList.reverse.takeWhile (fun ch => ch != '/')).reverse)

/-- `transform_df(df, mapping, source_name, source_file_name)` of the
source: rename raw columns per the mapping, pad missing canonical
columns with typed nulls, stamp `source`, `etl_load_time` (the ambient
`current_timestamp()`, passed explicitly as `load_time`),
`version_number = '1.0'` and `source_file_name` (basename). -/
def transform_df (df : Df) (mapping : List (String × String)) (source_name : String)
    (source_file_name : String) (load_time : String) : Df :=
  withColumn
    (withColumn
      (withColumn
        (withColumn (padMissing (renameColumns df mapping)) "source" (Cell.str source_name))
        "etl_load_time" (Cell.timestamp load_time))
      "version_number" (Cell.str "1.0"))
    "source_file_name" (Cell.str (basename source_file_name))

/-- `df.select(cols)` on one row: project exactly the named columns in
order; selecting an absent column is an `AnalysisException` in Spark,
modelled as `none`.  (The `getD` default is unreachable under the
guard.) -/
def selectColumns (df : Df) (cols : List String) : Option Df :=
  if cols.all (fun c => decide (c ∈ columnsOf df)) then
    some (cols.map (fun c => (c, (getVal df c).getD (Cell.null SparkType.string))))
  else none

/-- `select_target_columns(df_all, target_columns)` of the source,
applied to every row. -/
def select_target_columns (t : Table) (cols : List String) : Option Table :=
  t.mapM (fun df => selectColumns df cols)

theorem getVal_some_mem : ∀ {d : Df} {c : String} {v : Cell},
    getVal d c = some v → c ∈ columnsOf d
  | [], c, v, h => by simp [getVal] at h
  | p :: rest, c, v, h => by
    by_cases hp : p.1 = c
    · exact List.mem_cons.mpr (Or.inl hp.symm)
    · rw [getVal, if_neg hp] at h
      exact List.mem_cons.mpr (Or.inr (getVal_some_mem h))

theorem mem_columnsOf_withColumn {d : Df} {x : String} (hx : x ∈ columnsOf d)
    (c : String) (v : Cell) : x ∈ columnsOf (withColumn d c v) := by
  rw [columnsOf_withColumn]
  by_cases h : c ∈ columnsOf d
  · rw [if_pos h]
    exact hx
  · rw [if_neg h]
    exact List.mem_append.mpr (Or.inl hx)

theorem self_mem_columnsOf_withColumn (d : Df) (c : String) (v : Cell) :
    c ∈ columnsOf (withColumn d c v) := by
  rw [columnsOf_withColumn]
  by_cases h : c ∈ columnsOf d
  · rw [if_pos h]
    exact h
  · rw [if_neg h]
    exact List.mem_append.mpr (Or.inr (List.mem_cons_self c []))

theorem mem_columnsOf_padStep {d : Df} {x : String} (hx : x ∈ columnsOf d) (c : String) :
    x ∈ columnsOf (padStep d c) := by
  rw [padStep]
  by_cases h : c ∈ columnsOf d
  · rw [if_pos h]
    exact hx
  · rw [if_neg h]
    exact mem_columnsOf_withColumn hx c _

theorem self_mem_columnsOf_padStep (d : Df) (c : String) :
    c ∈ columnsOf (padStep d c) := by
  rw [padStep]
  by_cases h : c ∈ columnsOf d
  · rw [if_pos h]
    exact h
  · rw [if_neg h]
    exact self_mem_columnsOf_withColumn d c _

theorem mem_columnsOf_foldl_padStep :
    ∀ (cols : List String) (d : Df) (x : String),
      x ∈ columnsOf d ∨ x ∈ cols → x ∈ columnsOf (cols.foldl padStep d)
  | [], d, x, h => by
    rcases h with h | h
    · exact h
    · exact absurd h (List.not_mem_nil x)
  | a :: cols, d, x, h => by
    rw [List.foldl_cons]
    apply mem_columnsOf_foldl_padStep cols (padStep d a) x
    rcases h with h | h
    · exact Or.inl (mem_columnsOf_padStep h a)
    · rcases List.mem_cons.mp h with h2 | h2
      · exact Or.inl (by rw [h2]; exact self_mem_columnsOf_padStep d a)
      · exact Or.inr h2

theorem getVal_padStep_preserve {d : Df} {c : String} {v : Cell}
    (hv : getVal d c = some v) (c' : String) : getVal (padStep d c') c = some v := by
  rw [padStep]
  by_cases h : c' ∈ columnsOf d
  · rw [if_pos h]
    exact hv
  · rw [if_neg h]
    have hne : ¬ c = c' := fun hh => h (hh ▸ getVal_some_mem hv)
    rw [getVal_withColumn, if_neg hne]
    exact hv

theorem getVal_foldl_padStep_preserve :
    ∀ (cols : List String) (d : Df) (c : String) (v : Cell),
      getVal d c = some v → getVal (cols.foldl padStep d) c = some v
  | [], _, _, _, hv => hv
  | a :: cols, d, c, v, hv => by
    rw [List.foldl_cons]
    exact getVal_foldl_padStep_preserve cols _ c v (getVal_padStep_preserve hv a)

theorem getVal_foldl_padStep_null :
    ∀ (cols : List String) (d : Df) (c : String), c ∈ cols → c ∉ columnsOf d →
      getVal (cols.foldl padStep d) c = some (Cell.null (column_types c))
  | [], _, c, hc, _ => absurd hc (List.not_mem_nil c)
  | a :: cols, d, c, hc, hd => by
    rw [List.foldl_cons]
    by_cases hac : a = c
    · subst hac
      have hstep : getVal (padStep d a) a = some (Cell.null (column_types a)) := by
        rw [padStep, if_neg hd, getVal_withColumn, if_pos rfl]
      exact getVal_foldl_padStep_preserve cols _ a _ hstep
    · rcases List.mem_cons.mp hc with h | h
      · exact absurd h.symm hac
      · have hd2 : c ∉ columnsOf (padStep d a) := by
          rw [padStep]
          by_cases hmem : a ∈ columnsOf d
          · rw [if_pos hmem]
            exact hd
          · rw [if_neg hmem, columnsOf_withColumn, if_neg hmem]
            intro hx
            rcases List.mem_append.mp hx with h2 | h2
            · exact hd h2
            · rcases List.mem_cons.mp h2 with h3 | h3
              · exact hac h3.symm
              · exact absurd h3 (List.not_mem_nil c)
        exact getVal_foldl_padStep_null cols _ c h hd2

theorem getVal_map_self (f : String → Cell) :
    ∀ (cols : List String) (c : String), c ∈ cols →
      getVal (cols.map (fun x => (x, f x))) c = some (f c)
  | [], c, hc => absurd hc (List.not_mem_nil c)
  | a :: cols, c, hc => by
    by_cases hac : a = c
    · subst hac
      simp [getVal]
    · rcases List.mem_cons.mp hc with h | h
      · exact absurd h.symm hac
      · simp only [List.map_cons, getVal, if_neg hac]
        exact getVal_map_self f cols c h

set_option maxRecDepth 20000 in
/-- C5 counterexample to the claim as stated: the canonical schema the
pipeline produces has 36 fields (33 canonical columns plus 3 metadata
columns), not 35; a concretely produced record has 36 fields. -/
theorem canonical_35_fields_counterexample :
    target_columns.length = 36
    ∧ (selectColumns (transform_df [] [] "source1" "f.csv" "t0") target_columns).map
        (fun out => out.length) = some 36 := by
  constructor
  · rfl
  · rfl

/-- C5 (amended): for every raw row and mapping, the produced record
after `transform_df` and `select_target_columns` has exactly the 36
`target_columns` — no extra fields, no raw-only leakage — and every
canonical field absent after renaming (other than the four stamped
metadata fields) is present as the typed null of its declared type. -/
theorem canonical_fields_spec (df : Df) (mapping : List (String × String))
    (sn fp lt : String) :
    ∃ out, selectColumns (transform_df df mapping sn fp lt) target_columns = some out
      ∧ columnsOf out = target_columns
      ∧ out.length = 36
      ∧ ∀ c ∈ target_columns,
          c ∉ columnsOf (renameColumns df mapping) →
          c ∉ (["source", "etl_load_time", "version_number", "source_file_name"] : List String) →
          getVal out c = some (Cell.null (column_types c)) := by
  have hall : ∀ c ∈ target_columns, c ∈ columnsOf (transform_df df mapping sn fp lt) := by
    intro c hc
    rw [transform_df]
    apply mem_columnsOf_withColumn
    apply mem_columnsOf_withColumn
    apply mem_columnsOf_withColumn
    apply mem_columnsOf_withColumn
    exact mem_columnsOf_foldl_padStep target_columns _ c (Or.inr hc)
  have hsel : selectColumns (transform_df df mapping sn fp lt) target_columns
      = some (target_columns.map (fun c =>
          (c, (getVal (transform_df df mapping sn fp lt) c).getD (Cell.null SparkType.string)))) := by
    rw [selectColumns,
      if_pos (List.all_eq_true.mpr (fun c hc => decide_eq_true (hall c hc)))]
  refine ⟨_, hsel, ?_, ?_, ?_⟩
  · rw [columnsOf, List.map_map]
    exact (List.map_congr_left (fun c _ => rfl)).trans (List.map_id target_columns)
  · rw [List.length_map]
    rfl
  · intro c hc hren hmeta
    rw [getVal_map_self
      (fun x => (getVal (transform_df df mapping sn fp lt) x).getD (Cell.null SparkType.string))
      target_columns c hc]
    have hsrc : ¬ c = "source" := fun hh => hmeta (by rw [hh]; decide)
    have hetl : ¬ c = "etl_load_time" := fun hh => hmeta (by rw [hh]; decide)
    have hver : ¬ c = "version_number" := fun hh => hmeta (by rw [hh]; decide)
    have hsfn : ¬ c = "source_file_name" := fun hh => hmeta (by rw [hh]; decide)
    have hv : getVal (transform_df df mapping sn fp lt) c
        = some (Cell.null (column_types c)) := by
      rw [transform_df, getVal_withColumn, if_neg hsfn, getVal_withColumn, if_neg hver,
        getVal_withColumn, if_neg hetl, getVal_withColumn, if_neg hsrc]
      exact getVal_foldl_padStep_null target_columns _ c hc hren
    rw [hv]
    rfl

/-- Closed witness for `canonical_fields_spec`: one mapped raw row of
source1; the untouched canonical field `capacity` comes out as a typed
integer null. -/
theorem canonical_fields_spec_witness :
    ∃ out, selectColumns (transform_df [("Name", Cell.str "Acme")] [("Name", "company")]
        "source1" "dir/f1.csv" "t0") target_columns = some out
      ∧ columnsOf out = target_columns
      ∧ getVal out "capacity" = some (Cell.null SparkType.integer) := by
  obtain ⟨out, h1, h2, _h3, h4⟩ := canonical_fields_spec
    [("Name", Cell.str "Acme")] [("Name", "company")] "source1" "dir/f1.csv" "t0"
  refine ⟨out, h1, h2, ?_⟩
  exact h4 "capacity" (by decide) (by decide) (by decide)

/-- `regexp_replace(col('Operation Name'), r'"', '')` of the source3
special case: drop every quote character of a string; null stays
null. -/
def stripQuotes : Cell → Cell
  | Cell.str s => Cell.str (String.mk (s.toList.filter (fun ch => ch != '"')))
  | c => c

/-- `to_date(col, 'M/d/yy')`: month and day of one or two digits, a
two-digit year resolved to 2000-2099 (the formatter's reduced-year
base), `/` separators; anything else is null.  The result is the date
linearised as `y * 10000 + m * 100 + d`, monotone in (y, m, d).  The
engine's exact per-month day validation is abstracted to `1 ≤ d ≤ 31`;
no claim depends on it. -/
def parseDateMdyy (s : String) : Option Nat :=
  match splitOnChar '/' s with
  | [ms, ds, ys] =>
    if (1 ≤ ms.length ∧ ms.length ≤ 2 ∧ ms.toList.all Char.isDigit = true)
        ∧ (1 ≤ ds.length ∧ ds.length ≤ 2 ∧ ds.toList.all Char.isDigit = true)
        ∧ (ys.length = 2 ∧ ys.toList.all Char.isDigit = true) then
      if 1 ≤ digitsVal ms.toList ∧ digitsVal ms.toList ≤ 12
          ∧ 1 ≤ digitsVal ds.toList ∧ digitsVal ds.toList ≤ 31 then
        some ((2000 + digitsVal ys.toList) * 10000
          + digitsVal ms.toList * 100 + digitsVal ds.toList)
      else none
    else none
  | _ => none

/-- `to_date(col, fmt)` on a cell: a parsed date, or the typed date
null on a null input or a parse failure. -/
def toDateCell : Cell → Cell
  | Cell.str s =>
    match parseDateMdyy s with
    | some d => Cell.date d
    | none => Cell.null SparkType.date
  | _ => Cell.null SparkType.date

/-- Lines 185-190 of the source: convert `license_issued` and
`certificate_expiration_date` with `to_date` when present. -/
def convert_dates (df : Df) : Df :=
  (["license_issued", "certificate_expiration_date"]).foldl
    (fun d c => if c ∈ columnsOf d then mapColumn d c toDateCell else d) df

/-- `process_csv_file(file_path, source_name)` of the source.  The CSV
content arrives as `raw` (reading storage is outside the model), the
global `column_mappings` and the ambient ingest time are explicit
arguments.  Returns `none` — Python `None` — when the mapping table has
no entry for the source; the per-row transform chain otherwise.  The
schema-level guards of the source (`'licensee_name' in df.columns`,
`'capacity' in df.columns`, ...) are checked per row, which agrees with
the source because every row carries the one schema of its
DataFrame. -/
def process_csv_file (column_mappings : List (String × List (String × String)))
    (raw : Table) (file_path source_name load_time : String) : Option Table :=
  match column_mappings.lookup source_name with
  | none => none
  | some mapping =>
    let t0 := if source_name = "source3"
      then raw.map (fun df => mapColumn df "Operation Name" stripQuotes)
      else raw
    let t1 := t0.map (fun df => transform_df df mapping source_name file_path load_time)
    let t2 := t1.map (fun df => clean_phone df "phone")
    let t3 := t2.map name_split
    let t4 := t3.map convert_dates
    let t5 := t4.map (fun df => coerce_license_number (coerce_capacity df))
    let t6 := if source_name = "source2"
      then t5.map (fun df => combine_age_columns df ["Ages Accepted 1", "AA2", "AA3", "AA4"])
      else if source_name = "source3"
      then t5.map (fun df =>
        combine_age_columns_source3 df ["Infant", "Toddler", "Preschool", "School"])
      else t5
    some t6

/-- `process_all_files(csv_files)` of the source: process every file of
the dict, appending each result — including a Python `None` for a
source without a mapping — to the list. -/
def process_all_files (column_mappings : List (String × List (String × String)))
    (csv_files : List (String × String × Table)) (load_time : String) :
    List (Option Table) :=
  csv_files.map (fun f => process_csv_file column_mappings f.2.2 f.2.1 f.1 load_time)

/-- The schema of a table (all rows of a Spark DataFrame share it). -/
def tableCols (t : Table) : List String :=
  match t with
  | [] => []
  | df :: _ => columnsOf df

/-- `a.unionByName(b, allowMissingColumns=True)`: the result schema is
the left schema followed by the right-only columns; every row is
aligned to it, a missing column padded with the typed null. -/
def unionByName (a b : Table) : Table :=
  let cols := tableCols a ++ (tableCols b).filter (fun c => decide (c ∉ tableCols a))
  (a ++ b).map (fun df => cols.map (fun c =>
    (c, (getVal df c).getD (Cell.null (column_types c)))))

/-- `union_all_dataframes(dfs)` of the source: `dfs[0]` then a left
fold of `unionByName`.  `dfs[0]` of an empty list raises `IndexError`,
and `unionByName` with a `None` on either side raises
`AttributeError`; each raising path is `none`. -/
def union_all_dataframes (dfs : List (Option Table)) : Option Table :=
  match dfs with
  | [] => none
  | d0 :: rest =>
    rest.foldl (fun acc d =>
      match acc, d with
      | some a, some b => some (unionByName a b)
      | _, _ => none) d0

/-- The pipeline portion of `main()` before the JDBC write: process all
files, union, deduplicate, select the target columns.  A `none` is the
Python exception path (`main` has no handler, so the run aborts). -/
def run_pipeline (column_mappings : List (String × List (String × String)))
    (csv_files : List (String × String × Table)) (load_time : String) : Option Table :=
  match union_all_dataframes (process_all_files column_mappings csv_files load_time) with
  | none => none
  | some df_all => select_target_columns (deduplicate_dataframe df_all) target_columns

/-- C2: a source without a mapping entry is itself skipped before any
mapping is applied (`process_csv_file` returns `None`, so no partially
mapped record exists) — but the run does NOT continue with the
remaining sources: `process_all_files` appends the `None` to the
DataFrame list, and `union_all_dataframes` calls `unionByName` on it,
raising and aborting the whole run.  With the same files and a complete
mapping table the run completes. -/
theorem missing_mapping_aborts_run :
    process_csv_file
        [("source1", [("Name", "company")]), ("source2", [("Name", "company")])]
        [] "f3.csv" "source3" "t0" = none
    ∧ process_all_files
        [("source1", [("Name", "company")]), ("source2", [("Name", "company")])]
        [("source1", "f1.csv", []), ("source2", "f2.csv", []), ("source3", "f3.csv", [])]
        "t0"
      = [some [], some [], none]
    ∧ run_pipeline
        [("source1", [("Name", "company")]), ("source2", [("Name", "company")])]
        [("source1", "f1.csv", []), ("source2", "f2.csv", []), ("source3", "f3.csv", [])]
        "t0"
      = none
    ∧ run_pipeline
        [("source1", [("Name", "company")]), ("source2", [("Name", "company")]),
          ("source3", [("Name", "company")])]
        [("source1", "f1.csv", []), ("source2", "f2.csv", []), ("source3", "f3.csv", [])]
        "t0"
      = some [] :=
  ⟨rfl, rfl, rfl, rfl⟩
